import Mathlib

/-!
Shallow embedding of the argument default-resolution core of `delfick_app.py`
(`CliParser.split_args`, `CliParser.make_defaults`, `CliParser.check_args`,
`CliParser.interpret_args`), with theorems about its precedence rules,
splitting behaviour, conflict check and category mapping.

Python dictionaries are modelled as association lists with dict semantics:
assignment replaces the value at an existing key in place, otherwise appends.
The process environment is an explicit snapshot `String → Option String`.
-/

namespace DelfickApp

/-- Is `p` a prefix of `s`, on character lists?  (Lean's `String.startsWith`
does not reduce in the kernel, so Python's `str.startswith` is modelled
directly on the code points.) -/
def prefixChars : List Char → List Char → Bool
  | [], _ => true
  | _ :: _, [] => false
  | a :: as, b :: bs => if a = b then prefixChars as bs else false

/-- Python's `s.startswith(p)`. -/
def strStartsWith (s p : String) : Bool := prefixChars p.data s.data

/-- Python's `s[n:]`: drop the first `n` characters. -/
def strDrop (s : String) (n : Nat) : String := ⟨s.data.drop n⟩

/-- Lexicographic code-point comparison of character lists, as Python compares
strings. -/
def charListLt : List Char → List Char → Bool
  | [], [] => false
  | [], _ :: _ => true
  | _ :: _, [] => false
  | a :: as, b :: bs => if a < b then true else if b < a then false else charListLt as bs

/-- Python's `a < b` on strings. -/
def strLt (a b : String) : Bool := charListLt a.data b.data

/-- A positional replacement / environment default declaration: either a bare
flag name or a `(flag, default)` pair (the Python code detects the tuple case
with `type(replacement) is tuple`). -/
inductive Replacement where
  | flagOnly (flag : String) : Replacement
  | withDefault (flag : String) (dflt : String) : Replacement
deriving DecidableEq

/-- The flag name of a declaration (the tuple's first component, or the bare
name). -/
def Replacement.flag : Replacement → String
  | .flagOnly f => f
  | .withDefault f _ => f

/-- The declared fallback default of a declaration, when it has one. -/
def Replacement.fallback : Replacement → Option String
  | .flagOnly _ => none
  | .withDefault _ d => some d

/-- A resolved defaults mapping: flag name to its options object.  The options
object holds zero or one `default` entry, so it is modelled as
`Option String` (`none` for the empty object `{}`). -/
abbrev Defaults := List (String × Option String)

/-- `m[k] = v` on a Python dict modelled as an association list: replace the
value at the first occurrence of `k`, keeping its position, else append. -/
def dictInsert {α : Type} : List (String × α) → String → α → List (String × α)
  | [], k, v => [(k, v)]
  | p :: ps, k, v => if p.1 = k then (k, v) :: ps else p :: dictInsert ps k v

/-- `m.get(k)` on a Python dict modelled as an association list. -/
def dictLookup {α : Type} : List (String × α) → String → Option α
  | [], _ => none
  | p :: ps, k => if p.1 = k then some p.2 else dictLookup ps k

/-- `k in m` on a Python dict modelled as an association list. -/
def dictContains {α : Type} (m : List (String × α)) (k : String) : Bool :=
  (dictLookup m k).isSome

/-- First loop of `make_defaults` (lines 384-395): for each environment
default entry, record the environment value if the variable is set, else the
entry's declared fallback (an empty options object when there is none). -/
def envStep (env : String → Option String) (eds : List (String × Replacement)) : Defaults :=
  eds.foldl
    (fun d p =>
      match env p.1 with
      | some v => dictInsert d p.2.flag (some v)
      | none => dictInsert d p.2.flag p.2.fallback)
    []

/-- Second loop of `make_defaults` (lines 397-404): consume leading non-flag
tokens, one per positional replacement entry in declared order, overwriting
any earlier entry for the flag; stop at the first token starting with `-` or
when the tokens run out.  Returns the updated defaults and remaining tokens. -/
def posStep : List Replacement → Defaults → List String → Defaults × List String
  | [], d, argv => (d, argv)
  | _ :: _, d, [] => (d, [])
  | r :: rs, d, a :: rest =>
    if strStartsWith a "-" then (d, a :: rest)
    else posStep rs (dictInsert d r.flag (some a)) rest

/-- Third loop of `make_defaults` (lines 406-414): every positional
replacement flag not already present in the mapping gets its declared
fallback, or an empty options object. -/
def fillStep (prs : List Replacement) (d : Defaults) : Defaults :=
  prs.foldl
    (fun d r => if dictContains d r.flag then d else dictInsert d r.flag r.fallback)
    d

/-- `CliParser.make_defaults` (lines 361-416): build the defaults mapping from
the environment snapshot, the token list, the positional replacements and the
environment defaults.  Returns the mapping together with the token list after
positional consumption (the Python code pops consumed tokens from `argv` in
place). -/
def make_defaults (env : String → Option String) (argv : List String)
    (positional_replacements : List Replacement)
    (environment_defaults : List (String × Replacement)) : Defaults × List String :=
  let d1 := envStep env environment_defaults
  let (d2, argv2) := posStep positional_replacements d1 argv
  (fillStep positional_replacements d2, argv2)

/-- The `while argv:` loop of `split_args` (lines 345-352): tokens before the
first `"--"` are accumulated in `args`, the first `"--"` is discarded, and
every token after it (verbatim, later `"--"` included) goes to `extras`. -/
def splitLoop : List String → List String → Option (List String) →
    List String × Option (List String)
  | [], args, extras => (args, extras)
  | nxt :: rest, args, extras =>
    match extras with
    | some ex => splitLoop rest args (some (ex ++ [nxt]))
    | none =>
      if nxt = "--" then splitLoop rest args (some [])
      else splitLoop rest (args ++ [nxt]) none

/-- `CliParser.split_args` (lines 332-359): split the raw tokens into the
tokens to parse, the space-joined passthrough string after `"--"`, and the
resolved defaults mapping.  The returned token list reflects the in-place
positional consumption done by `make_defaults`. -/
def split_args (env : String → Option String) (argv : List String)
    (positional_replacements : List Replacement)
    (environment_defaults : List (String × Replacement)) :
    List String × String × Defaults :=
  let (args, extras) := splitLoop argv [] none
  let other_args : String :=
    match extras with
    | none => ""
    | some ex => if ex.isEmpty then "" else String.intercalate " " ex
  let (defaults, args2) := make_defaults env args positional_replacements environment_defaults
  (args2, other_args, defaults)

/-- The structured error of `check_args`: `BadOption` with its `argument` and
`position` keyword arguments. -/
structure BadOption where
  argument : String
  position : Nat
deriving DecidableEq

/-- Does the options object recorded for `flag` contain a `default` entry
(`"default" in defaults.get(replacement, {})`)? -/
def hasDefault (defaults : Defaults) (flag : String) : Bool :=
  match dictLookup defaults flag with
  | some (some _) => true
  | _ => false

/-- The loop of `check_args` with the running 0-based index: raise (return) a
`BadOption` at the first positional replacement whose flag both has a
`default` in the mapping and occurs literally among the tokens. -/
def checkFrom (args : List String) (defaults : Defaults) :
    List Replacement → Nat → Option BadOption
  | [], _ => none
  | r :: rs, idx =>
    if hasDefault defaults r.flag ∧ r.flag ∈ args then
      some ⟨r.flag, idx + 1⟩
    else checkFrom args defaults rs (idx + 1)

/-- `CliParser.check_args` (lines 324-330): `none` means the check passed,
`some e` that `BadOption` was raised with `e.argument` and `e.position`. -/
def check_args (args : List String) (defaults : Defaults)
    (positional_replacements : List Replacement) : Option BadOption :=
  checkFrom args defaults positional_replacements 0

/-- A value of the nested `cli_args` structure built by `interpret_args`: a
parsed value filed at the top level, or a category's sub-dictionary. -/
inductive CliValue (α : Type) where
  | top (v : α) : CliValue α
  | sub (m : List (String × α)) : CliValue α
deriving DecidableEq

/-- Stable insertion into a list sorted by key (Python code-point order). -/
def insertByKey {α : Type} (p : String × α) : List (String × α) → List (String × α)
  | [] => [p]
  | q :: qs => if strLt q.1 p.1 then q :: insertByKey p qs else p :: q :: qs

/-- Python's `sorted` on dict items by key: a stable sort by code-point order
(keys of a dict are distinct, so ties never reach the values). -/
def sortByKey {α : Type} : List (String × α) → List (String × α)
  | [] => []
  | p :: ps => insertByKey p (sortByKey ps)

/-- Filing a key under a matched category (line 303): store the value in that
category's sub-dictionary under the key with the `<category>_` prefix
stripped.  `none` models the `TypeError` Python would raise if the slot held
by the category name were no longer a dictionary. -/
def fileInto {α : Type} (acc : List (String × CliValue α)) (c k : String) (v : α) :
    Option (List (String × CliValue α)) :=
  match dictLookup acc c with
  | some (.sub m) =>
    some (dictInsert acc c (.sub (dictInsert m (strDrop k (c.length + 1)) v)))
  | _ => none

/-- Dispatch of one key: the first declared category whose `<category>_`
prefix the key carries receives it (via `fileInto`), otherwise it lands at
the top level. -/
def fileOne {α : Type} (categories : List String) (acc : List (String × CliValue α))
    (k : String) (v : α) : Option (List (String × CliValue α)) :=
  match categories.find? (fun c => strStartsWith k (c ++ "_")) with
  | some c => fileInto acc c k v
  | none => some (dictInsert acc k (.top v))

/-- The first loop of `interpret_args` (lines 297-298): an empty
sub-dictionary for every declared category. -/
def interpretInit {α : Type} (categories : List String) : List (String × CliValue α) :=
  categories.foldl (fun acc c => dictInsert acc c (.sub [])) []

/-- The `for key, val` loop of `interpret_args` (lines 299-308) over the
already-sorted pairs, threading the `cli_args` dictionary and propagating the
error case. -/
def foldFile {α : Type} (categories : List String) :
    List (String × α) → List (String × CliValue α) → Option (List (String × CliValue α))
  | [], acc => some acc
  | p :: ps, acc => (fileOne categories acc p.1 p.2).bind (foldFile categories ps)

/-- The category-mapping part of `CliParser.interpret_args` (lines 296-308):
regroup the parsed key/value pairs (taken in sorted key order) into the
nested `cli_args` dictionary. -/
def interpret_args {α : Type} (categories : List String) (pairs : List (String × α)) :
    Option (List (String × CliValue α)) :=
  foldFile categories (sortByKey pairs) (interpretInit categories)

/-! ### Association-list dictionary lemmas -/

theorem dictLookup_dictInsert_self {α : Type} (m : List (String × α)) (k : String) (v : α) :
    dictLookup (dictInsert m k v) k = some v := by
  induction m with
  | nil => simp [dictInsert, dictLookup]
  | cons p ps ih =>
    by_cases h : p.1 = k
    · simp [dictInsert, dictLookup, h]
    · simp [dictInsert, dictLookup, h, ih]

theorem dictLookup_dictInsert_ne {α : Type} (m : List (String × α)) (k k' : String) (v : α)
    (h : k' ≠ k) : dictLookup (dictInsert m k v) k' = dictLookup m k' := by
  induction m with
  | nil =>
    simp only [dictInsert, dictLookup]
    rw [if_neg (Ne.symm h)]
  | cons p ps ih =>
    by_cases hp : p.1 = k
    · have hpk' : p.1 ≠ k' := by rw [hp]; exact Ne.symm h
      simp only [dictInsert, dictLookup, if_pos hp, if_neg (Ne.symm h), if_neg hpk']
    · by_cases hq : p.1 = k'
      · simp only [dictInsert, dictLookup, if_neg hp, if_pos hq]
      · simp only [dictInsert, dictLookup, if_neg hp, if_neg hq]
        exact ih

/-! ### Theorems about the claims -/

/-- Claim C8: with positional replacements `["--env", ("--task", "list_tasks")]`
and input tokens `["dev"]`, the resolver returns the mapping
`{"--env": {"default": "dev"}, "--task": {"default": "list_tasks"}}` and
leaves the token list empty. -/
theorem make_defaults_env_task_example :
    make_defaults (fun _ => none) ["dev"]
      [Replacement.flagOnly "--env", Replacement.withDefault "--task" "list_tasks"] [] =
    ([("--env", some "dev"), ("--task", some "list_tasks")], []) := by decide

/-- Claim C1 fails on the code: with `--config` declared both as a positional
replacement with fallback `"a/nicer/place.yml"` and as the target of the
environment default `CONFIG_LOCATION` with fallback `"the/best/place.yml"`,
the variable unset and no tokens, the resolved default is the environment
entry's fallback, not the positional-replacement fallback the claim requires
(the repository's own test `environment_defaults default value overrides
positional_replacements default` pins this behaviour). -/
theorem env_fallback_preempts_positional_fallback :
    dictLookup (make_defaults (fun _ => none) []
        [Replacement.withDefault "--config" "a/nicer/place.yml"]
        [("CONFIG_LOCATION", Replacement.withDefault "--config" "the/best/place.yml")]).1
      "--config" = some (some "the/best/place.yml") ∧
    dictLookup (make_defaults (fun _ => none) []
        [Replacement.withDefault "--config" "a/nicer/place.yml"]
        [("CONFIG_LOCATION", Replacement.withDefault "--config" "the/best/place.yml")]).1
      "--config" ≠ some (some "a/nicer/place.yml") := by decide

/-- Claim C1 (amended): the environment-default entry outranks the
positional-replacement fallback.  For a flag declared both as a positional
replacement and as the target of an environment default, when the variable is
unset and no positional token is consumed (no tokens, or the first token
starts with the flag marker), the resolved mapping gives the flag exactly the
environment entry's own declaration: its fallback when it has one, and no
default at all otherwise — never the positional-replacement fallback. -/
theorem unconsumed_flag_gets_env_entry_fallback (env : String → Option String)
    (evn : String) (pr er : Replacement) (tokens : List String)
    (hflag : er.flag = pr.flag) (henv : env evn = none)
    (htok : tokens = [] ∨ ∃ t rest, tokens = t :: rest ∧ strStartsWith t "-" = true) :
    dictLookup (make_defaults env tokens [pr] [(evn, er)]).1 pr.flag = some er.fallback := by
  rcases htok with rfl | ⟨t, rest, rfl, ht⟩
  · simp [make_defaults, envStep, posStep, fillStep, dictContains, dictLookup, dictInsert,
      henv, hflag]
  · simp [make_defaults, envStep, posStep, fillStep, dictContains, dictLookup, dictInsert,
      henv, hflag, ht]

/-- Witness for the amended claim C1 at the concrete input of the
counterexample. -/
theorem unconsumed_flag_gets_env_entry_fallback_witness :
    dictLookup (make_defaults (fun _ => none) []
        [Replacement.withDefault "--config" "a/nicer/place.yml"]
        [("CONFIG_LOCATION", Replacement.withDefault "--config" "the/best/place.yml")]).1
      (Replacement.withDefault "--config" "a/nicer/place.yml").flag =
    some (Replacement.withDefault "--config" "the/best/place.yml").fallback :=
  unconsumed_flag_gets_env_entry_fallback (fun _ => none) "CONFIG_LOCATION"
    (Replacement.withDefault "--config" "a/nicer/place.yml")
    (Replacement.withDefault "--config" "the/best/place.yml") [] rfl rfl (Or.inl rfl)

/-- Claim C10: a parsed key exactly equal to a declared category name does not
carry the `<category>_` prefix, so it is filed at the top level, overwriting
the category's empty sub-mapping: for categories `["app"]` and the single
pair `("app", v)`, the output maps `"app"` to the value itself. -/
theorem category_name_key_filed_top_level {α : Type} (v : α) :
    interpret_args ["app"] [("app", v)] = some [("app", CliValue.top v)] := rfl

/-- Claim C7 fails on the code as stated: for categories `["app"]` and the
single parsed pair `("app", "x")`, the category `app` is matched by no key
(no key starts with `app_`), yet it does not remain an empty sub-mapping —
the top-level placement of the key `"app"` overwrites it. -/
theorem category_submapping_not_preserved :
    interpret_args ["app"] [("app", "x")] = some [("app", CliValue.top "x")] ∧
    some [("app", CliValue.top "x")] ≠
      some [("app", CliValue.sub ([] : List (String × String)))] := by decide

/-- Claim C2: for a flag declared both as a positional replacement and as the
target of an environment default, when the variable is set and a matching
positional token is present (the first token, not starting with the flag
marker), the resolved default is the positional token's value — the
positional entry overwrites the environment entry. -/
theorem positional_token_overwrites_env_value (env : String → Option String)
    (evn v t : String) (pr er : Replacement) (rest : List String)
    (hflag : er.flag = pr.flag) (henv : env evn = some v)
    (ht : strStartsWith t "-" = false) :
    dictLookup (make_defaults env (t :: rest) [pr] [(evn, er)]).1 pr.flag = some (some t) := by
  simp [make_defaults, envStep, posStep, fillStep, dictContains, dictLookup, dictInsert,
    henv, hflag, ht]

/-- Witness for claim C2 at the concrete input of the repository's test
`overrides default from environment_defaults with value from argv`. -/
theorem positional_token_overwrites_env_value_witness :
    dictLookup (make_defaults
        (fun n => if n = "CONFIG_LOCATION" then some "/some/nice/config.yml" else none)
        ["a/better/place.yml"] [Replacement.flagOnly "--config"]
        [("CONFIG_LOCATION", Replacement.flagOnly "--config")]).1
      (Replacement.flagOnly "--config").flag = some (some "a/better/place.yml") :=
  positional_token_overwrites_env_value
    (fun n => if n = "CONFIG_LOCATION" then some "/some/nice/config.yml" else none)
    "CONFIG_LOCATION" "/some/nice/config.yml" "a/better/place.yml"
    (Replacement.flagOnly "--config") (Replacement.flagOnly "--config") []
    rfl rfl rfl

/-- Claim C3: for a flag declared both as a positional replacement and as the
target of an environment default, when the variable is set and no positional
token is present (no tokens, or the first token starts with the flag marker),
the resolved default is the environment variable's value. -/
theorem env_value_when_no_positional_token (env : String → Option String)
    (evn v : String) (pr er : Replacement) (tokens : List String)
    (hflag : er.flag = pr.flag) (henv : env evn = some v)
    (htok : tokens = [] ∨ ∃ t rest, tokens = t :: rest ∧ strStartsWith t "-" = true) :
    dictLookup (make_defaults env tokens [pr] [(evn, er)]).1 pr.flag = some (some v) := by
  rcases htok with rfl | ⟨t, rest, rfl, ht⟩
  · simp [make_defaults, envStep, posStep, fillStep, dictContains, dictLookup, dictInsert,
      henv, hflag]
  · simp [make_defaults, envStep, posStep, fillStep, dictContains, dictLookup, dictInsert,
      henv, hflag, ht]

/-- Witness for claim C3 at the concrete input of the repository's test
`takes argv before environment_defaults`, empty token list. -/
theorem env_value_when_no_positional_token_witness :
    dictLookup (make_defaults
        (fun n => if n = "CONFIG_LOCATION" then some "/some/nice/config.yml" else none)
        [] [Replacement.flagOnly "--config"]
        [("CONFIG_LOCATION", Replacement.flagOnly "--config")]).1
      (Replacement.flagOnly "--config").flag = some (some "/some/nice/config.yml") :=
  env_value_when_no_positional_token
    (fun n => if n = "CONFIG_LOCATION" then some "/some/nice/config.yml" else none)
    "CONFIG_LOCATION" "/some/nice/config.yml"
    (Replacement.flagOnly "--config") (Replacement.flagOnly "--config") []
    rfl rfl (Or.inl rfl)

/-- Claim C9: default resolution is deterministic and history-free — the
output is a function of the inputs alone, and reads the environment snapshot
only at the declared variable names: two snapshots agreeing on every declared
name give identical resolved mappings and identical remaining token lists. -/
theorem make_defaults_depends_only_on_declared_env (env1 env2 : String → Option String)
    (tokens : List String) (prs : List Replacement) (eds : List (String × Replacement))
    (h : ∀ p ∈ eds, env1 p.1 = env2 p.1) :
    make_defaults env1 tokens prs eds = make_defaults env2 tokens prs eds := by
  have key : ∀ (l : List (String × Replacement)), (∀ p ∈ l, env1 p.1 = env2 p.1) →
      ∀ d : Defaults,
      l.foldl (fun d p =>
        match env1 p.1 with
        | some v => dictInsert d p.2.flag (some v)
        | none => dictInsert d p.2.flag p.2.fallback) d =
      l.foldl (fun d p =>
        match env2 p.1 with
        | some v => dictInsert d p.2.flag (some v)
        | none => dictInsert d p.2.flag p.2.fallback) d := by
    intro l
    induction l with
    | nil => intro _ d; rfl
    | cons q qs ih =>
      intro hl d
      simp only [List.foldl_cons]
      rw [hl q (List.mem_cons_self q qs)]
      exact ih (fun p hp => hl p (List.mem_cons_of_mem q hp)) _
  have henvs : envStep env1 eds = envStep env2 eds := key eds h []
  unfold make_defaults
  rw [henvs]

/-- Witness for claim C9: two snapshots that differ on an undeclared variable
but agree on the declared one resolve identically. -/
theorem make_defaults_depends_only_on_declared_env_witness :
    make_defaults (fun n => if n = "A" then some "1" else none) ["tok"]
      [Replacement.flagOnly "--p"] [("A", Replacement.flagOnly "--a")] =
    make_defaults (fun n => if n = "A" then some "1" else some "other") ["tok"]
      [Replacement.flagOnly "--p"] [("A", Replacement.flagOnly "--a")] :=
  make_defaults_depends_only_on_declared_env
    (fun n => if n = "A" then some "1" else none)
    (fun n => if n = "A" then some "1" else some "other")
    ["tok"] [Replacement.flagOnly "--p"] [("A", Replacement.flagOnly "--a")]
    (by decide)

/-- Claim C5: positional consumption pairs the declared entries, in order,
with the leading tokens that do not start with the flag marker (negative
numbers such as `"-5"` included in the stopping rule), stopping entirely at
the first marker-prefixed token or when tokens or entries run out: the
resolved entries are exactly the entries zipped with that token prefix,
capped at the number of entries, and the remaining list is the input with the
consumed prefix removed. -/
theorem posStep_consumes_nonflag_prefix :
    ∀ (prs : List Replacement) (d : Defaults) (argv : List String),
    posStep prs d argv =
      ((prs.zip (argv.takeWhile (fun a => !(strStartsWith a "-")))).foldl
          (fun acc p => dictInsert acc p.1.flag (some p.2)) d,
        argv.drop (min prs.length (argv.takeWhile (fun a => !(strStartsWith a "-"))).length)) := by
  intro prs
  induction prs with
  | nil => intro d argv; simp [posStep]
  | cons r rs ih =>
    intro d argv
    cases argv with
    | nil => simp [posStep]
    | cons a rest =>
      by_cases ha : strStartsWith a "-" = true
      · simp [posStep, ha]
      · have ha' : strStartsWith a "-" = false := by
          cases hsw : strStartsWith a "-"
          · rfl
          · exact absurd hsw ha
        simp [posStep, ha', ih, Nat.succ_min_succ]

/-- The accumulator in `extras` mode: every remaining token is appended
verbatim. -/
theorem splitLoop_some (l : List String) : ∀ (args ex : List String),
    splitLoop l args (some ex) = (args, some (ex ++ l)) := by
  induction l with
  | nil => intro args ex; simp [splitLoop]
  | cons nxt rest ih =>
    intro args ex
    simp [splitLoop, ih]

/-- The scan starting before any separator: tokens split at the first
`"--"`. -/
theorem splitLoop_none (l : List String) : ∀ (args : List String),
    splitLoop l args none =
      (args ++ l.takeWhile (fun t => !(t == "--")),
        if "--" ∈ l then some ((l.dropWhile (fun t => !(t == "--"))).drop 1) else none) := by
  induction l with
  | nil => intro args; simp [splitLoop]
  | cons nxt rest ih =>
    intro args
    by_cases hx : nxt = "--"
    · subst hx
      simp [splitLoop, splitLoop_some]
    · have hx' : ¬("--" = nxt) := fun he => hx he.symm
      simp [splitLoop, hx, hx', ih, List.takeWhile_cons, List.dropWhile_cons]

/-- Joining a possibly-empty extras list: the guard in the Python code is
redundant, since joining an empty list gives the empty string anyway. -/
theorem joinExtras (ex : List String) :
    (if ex.isEmpty then "" else String.intercalate " " ex) = String.intercalate " " ex := by
  cases ex with
  | nil => rfl
  | cons a l => rfl

/-- A list every element of which satisfies the predicate drops to nothing. -/
theorem dropWhile_of_all {α : Type} (p : α → Bool) :
    ∀ l : List α, (∀ x ∈ l, p x = true) → l.dropWhile p = [] := by
  intro l
  induction l with
  | nil => intro _; rfl
  | cons a as ih =>
    intro h
    rw [List.dropWhile_cons, if_pos (h a (List.mem_cons_self a as))]
    exact ih (fun x hx => h x (List.mem_cons_of_mem a hx))

/-- Claim C4: with no positional replacements declared (so that the resolver
consumes nothing), `split_args` returns as parse tokens exactly the tokens
strictly before the first `"--"` separator — the whole input when no
separator is present — and as passthrough string the tokens strictly after
the first separator joined with single spaces, which is the empty string both
when there is no separator and when the separator is the last token. -/
theorem split_args_separator_split (tokens : List String) (env : String → Option String)
    (eds : List (String × Replacement)) :
    (split_args env tokens [] eds).1 = tokens.takeWhile (fun t => !(t == "--")) ∧
    (split_args env tokens [] eds).2.1 =
      String.intercalate " " ((tokens.dropWhile (fun t => !(t == "--"))).drop 1) := by
  unfold split_args
  rw [splitLoop_none tokens []]
  by_cases hm : "--" ∈ tokens
  · simp [hm, make_defaults, posStep, fillStep, joinExtras]
    intro h
    rw [h]
    rfl
  · have hdrop : tokens.dropWhile (fun t => !(t == "--")) = [] := by
      apply dropWhile_of_all
      intro x hx
      simp only [Bool.not_eq_true']
      exact beq_false_of_ne (fun he => hm (he ▸ hx))
    simp [hm, make_defaults, posStep, fillStep, hdrop]
    rfl

/-- The conflict scan finds an entry exactly when one satisfies the conflict
condition, whatever the running index. -/
theorem checkFrom_isSome_iff (args : List String) (defaults : Defaults) :
    ∀ (l : List Replacement) (idx : Nat),
    (checkFrom args defaults l idx).isSome = true ↔
      ∃ r ∈ l, hasDefault defaults r.flag = true ∧ r.flag ∈ args := by
  intro l
  induction l with
  | nil => intro idx; simp [checkFrom]
  | cons r rs ih =>
    intro idx
    by_cases hc : hasDefault defaults r.flag = true ∧ r.flag ∈ args
    · simp only [checkFrom, if_pos hc, Option.isSome_some]
      constructor
      · intro _
        exact ⟨r, List.mem_cons_self r rs, hc⟩
      · intro _
        trivial
    · simp only [checkFrom, if_neg hc]
      rw [ih (idx + 1)]
      constructor
      · rintro ⟨x, hx, hxc⟩
        exact ⟨x, List.mem_cons_of_mem r hx, hxc⟩
      · rintro ⟨x, hx, hxc⟩
        rcases List.mem_cons.mp hx with rfl | hx2
        · exact absurd hxc hc
        · exact ⟨x, hx2, hxc⟩

/-- When the conflict scan reports an error, the error carries the flag and
1-based position of an entry satisfying the conflict condition. -/
theorem checkFrom_some_spec (args : List String) (defaults : Defaults) :
    ∀ (l : List Replacement) (idx : Nat) (e : BadOption),
    checkFrom args defaults l idx = some e →
    ∃ i, ∃ h : i < l.length,
      e.argument = (l.get ⟨i, h⟩).flag ∧ e.position = idx + i + 1 ∧
      hasDefault defaults (l.get ⟨i, h⟩).flag = true ∧ (l.get ⟨i, h⟩).flag ∈ args := by
  intro l
  induction l with
  | nil =>
    intro idx e he
    simp [checkFrom] at he
  | cons r rs ih =>
    intro idx e he
    by_cases hc : hasDefault defaults r.flag = true ∧ r.flag ∈ args
    · rw [checkFrom, if_pos hc] at he
      obtain rfl : (⟨r.flag, idx + 1⟩ : BadOption) = e := Option.some.inj he
      exact ⟨0, Nat.succ_pos rs.length, rfl, rfl, hc.1, hc.2⟩
    · rw [checkFrom, if_neg hc] at he
      obtain ⟨i, hi, ha, hp, hd, hmem⟩ := ih (idx + 1) e he
      refine ⟨i + 1, Nat.succ_lt_succ hi, ha, ?_, hd, hmem⟩
      omega

/-- Claim C6: the conflict check reports an error exactly when some positional
replacement entry's flag both has a `default` entry in the resolved mapping
and occurs literally as a token; the reported error carries such an entry's
flag name as `argument` and its 1-based declared index as `position`;
otherwise the check returns without error. -/
theorem check_args_conflict_characterisation (args : List String) (defaults : Defaults)
    (prs : List Replacement) :
    ((check_args args defaults prs).isSome = true ↔
      ∃ r ∈ prs, hasDefault defaults r.flag = true ∧ r.flag ∈ args) ∧
    (∀ e, check_args args defaults prs = some e →
      ∃ i, ∃ h : i < prs.length,
        e.argument = (prs.get ⟨i, h⟩).flag ∧ e.position = i + 1 ∧
        hasDefault defaults (prs.get ⟨i, h⟩).flag = true ∧ (prs.get ⟨i, h⟩).flag ∈ args) := by
  constructor
  · exact checkFrom_isSome_iff args defaults prs 0
  · intro e he
    obtain ⟨i, hi, ha, hp, hd, hmem⟩ := checkFrom_some_spec args defaults prs 0 e he
    refine ⟨i, hi, ha, ?_, hd, hmem⟩
    omega

/-- Membership after a stable insert: the inserted pair or an original one. -/
theorem mem_insertByKey {α : Type} (p x : String × α) :
    ∀ l : List (String × α), x ∈ insertByKey p l → x = p ∨ x ∈ l := by
  intro l
  induction l with
  | nil =>
    intro hx
    simp [insertByKey] at hx
    exact Or.inl hx
  | cons q qs ih =>
    intro hx
    simp only [insertByKey] at hx
    by_cases hq : strLt q.1 p.1 = true
    · rw [if_pos hq] at hx
      rcases List.mem_cons.mp hx with rfl | hx2
      · exact Or.inr (List.mem_cons_self _ _)
      · rcases ih hx2 with h1 | h2
        · exact Or.inl h1
        · exact Or.inr (List.mem_cons_of_mem _ h2)
    · rw [if_neg hq] at hx
      rcases List.mem_cons.mp hx with rfl | hx2
      · exact Or.inl rfl
      · exact Or.inr hx2

/-- Sorting by key keeps exactly the original pairs. -/
theorem mem_sortByKey {α : Type} (x : String × α) :
    ∀ l : List (String × α), x ∈ sortByKey l → x ∈ l := by
  intro l
  induction l with
  | nil =>
    intro hx
    simp [sortByKey] at hx
  | cons p ps ih =>
    intro hx
    rcases mem_insertByKey p x (sortByKey ps) hx with rfl | hx2
    · exact List.mem_cons_self _ _
    · exact List.mem_cons_of_mem _ (ih hx2)

/-- After the initial category loop every declared category holds an empty
sub-dictionary. -/
theorem dictLookup_interpretInit {α : Type} (c : String) :
    ∀ (cats : List String) (acc : List (String × CliValue α)),
    (c ∈ cats ∨ dictLookup acc c = some (CliValue.sub [])) →
    dictLookup (cats.foldl (fun acc c2 => dictInsert acc c2 (CliValue.sub [])) acc) c =
      some (CliValue.sub []) := by
  intro cats
  induction cats with
  | nil =>
    intro acc h
    rcases h with h | h
    · simp at h
    · exact h
  | cons c2 cs ih =>
    intro acc h
    simp only [List.foldl_cons]
    apply ih
    by_cases hc : c = c2
    · right
      subst hc
      exact dictLookup_dictInsert_self acc c (CliValue.sub [])
    · rcases h with h | h
      · rcases List.mem_cons.mp h with rfl | h2
        · exact absurd rfl hc
        · exact Or.inl h2
      · right
        rw [dictLookup_dictInsert_ne acc c2 c _ hc]
        exact h

/-- Filing one key whose name neither carries the category's prefix nor
equals the category name leaves that category's empty sub-dictionary
untouched. -/
theorem fileOne_preserves_empty_cat {α : Type} (cats : List String) (c k : String) (v : α)
    (acc out : List (String × CliValue α))
    (hk : strStartsWith k (c ++ "_") = false) (hkc : k ≠ c)
    (hacc : dictLookup acc c = some (CliValue.sub []))
    (hout : fileOne cats acc k v = some out) :
    dictLookup out c = some (CliValue.sub []) := by
  unfold fileOne at hout
  cases hfind : cats.find? (fun c2 => strStartsWith k (c2 ++ "_")) with
  | none =>
    rw [hfind] at hout
    obtain rfl : dictInsert acc k (CliValue.top v) = out := Option.some.inj hout
    rw [dictLookup_dictInsert_ne acc k c _ (Ne.symm hkc)]
    exact hacc
  | some c2 =>
    rw [hfind] at hout
    have hout2 : fileInto acc c2 k v = some out := hout
    have hc2 : strStartsWith k (c2 ++ "_") = true := by
      have hp := List.find?_some hfind
      simpa using hp
    have hne : c2 ≠ c := by
      intro he
      rw [he, hk] at hc2
      exact Bool.false_ne_true hc2
    unfold fileInto at hout2
    cases hl : dictLookup acc c2 with
    | none =>
      rw [hl] at hout2
      have h3 : (none : Option (List (String × CliValue α))) = some out := hout2
      exact absurd h3 (by simp)
    | some cv =>
      cases cv with
      | top w =>
        rw [hl] at hout2
        have h3 : (none : Option (List (String × CliValue α))) = some out := hout2
        exact absurd h3 (by simp)
      | sub m =>
        rw [hl] at hout2
        have h3 :
            some (dictInsert acc c2 (CliValue.sub (dictInsert m (strDrop k (c2.length + 1)) v))) =
              some out := hout2
        obtain rfl := Option.some.inj h3
        rw [dictLookup_dictInsert_ne acc c2 c _ (Ne.symm hne)]
        exact hacc

/-- The filing loop preserves an empty category sub-dictionary when no filed
key carries its prefix or equals its name. -/
theorem foldFile_preserves_empty_cat {α : Type} (cats : List String) (c : String) :
    ∀ (l : List (String × α)) (acc : List (String × CliValue α)),
    (∀ p ∈ l, strStartsWith p.1 (c ++ "_") = false ∧ p.1 ≠ c) →
    dictLookup acc c = some (CliValue.sub []) →
    ∀ out, foldFile cats l acc = some out →
    dictLookup out c = some (CliValue.sub []) := by
  intro l
  induction l with
  | nil =>
    intro acc _ hacc out hout
    obtain rfl : acc = out := Option.some.inj hout
    exact hacc
  | cons p ps ih =>
    intro acc hl hacc out hout
    simp only [foldFile] at hout
    cases hf : fileOne cats acc p.1 p.2 with
    | none =>
      rw [hf] at hout
      exact absurd hout (by simp)
    | some acc2 =>
      rw [hf] at hout
      simp only [Option.some_bind] at hout
      have h1 := hl p (List.mem_cons_self p ps)
      have hacc2 := fileOne_preserves_empty_cat cats c p.1 p.2 acc acc2 h1.1 h1.2 hacc hf
      exact ih acc2 (fun q hq => hl q (List.mem_cons_of_mem p hq)) hacc2 out hout

/-- Claim C7 (amended): the mapper starts every declared category as an empty
sub-mapping, files each pair taken in sorted key order into the first
declared category whose `<category>_` prefix its key carries (prefix
stripped) and every other pair at the top level — so on categories `["app"]`
and pairs `{app_one: "1", app_two: "2", other: "3"}` the output is
`{"app": {"one": "1", "two": "2"}, "other": "3"}` — and a category matched by
no key remains an empty sub-mapping provided its exact name also does not
occur as a parsed key (a key equal to the category name is filed at the top
level and overwrites the sub-mapping). -/
theorem interpret_args_category_mapping :
    (interpret_args ["app"] [("app_one", "1"), ("app_two", "2"), ("other", "3")] =
      some [("app", CliValue.sub [("one", "1"), ("two", "2")]), ("other", CliValue.top "3")]) ∧
    ∀ (α : Type) (cats : List String) (pairs : List (String × α)) (c : String),
      c ∈ cats →
      (∀ p ∈ pairs, strStartsWith p.1 (c ++ "_") = false ∧ p.1 ≠ c) →
      ∀ out, interpret_args cats pairs = some out →
      dictLookup out c = some (CliValue.sub []) := by
  constructor
  · decide
  · intro α cats pairs c hc hp out hout
    exact foldFile_preserves_empty_cat cats c (sortByKey pairs) (interpretInit cats)
      (fun q hq => hp q (mem_sortByKey q pairs hq))
      (dictLookup_interpretInit c cats [] (Or.inl hc)) out hout

end DelfickApp
